import Mathlib

/-!
Verification development for the dependency-aware version propagation engine of
`packages/nx-python/src/generators/release-version/release-version.ts`.

The development shallowly embeds:
* the semantic-version primitives the generator delegates to (`semver.inc`,
  `semver.gt`, `semver.prerelease`, and nx's `deriveNewSemverVersion`),
* the per-project iteration of `releaseVersionGenerator`: specifier resolution
  (conventional-commits / version-plans branches with the dependency-bump
  fallback), dependent classification, the circular-dependency set, and the
  ledger of `updateDependentProjectAndAddToVersionData` calls,
* `updateDependentProjectAndAddToVersionData` itself over a poetry manifest model,
* the deferred-side-effect result callback,
* the topological orderer (modelled from the spec, since
  `utils/sort-projects-topologically` is not part of the sources at hand).
-/

namespace ReleaseVersion

/-- Project names, as used for `project.name` keys throughout the generator. -/
abbrev Name := String

/-! ## Semantic versions (the `semver` library primitives used by the generator) -/

/-- A single dot-separated prerelease identifier: numeric identifiers compare as
numbers and are lower than alphanumeric identifiers, which compare
lexicographically (node-semver `compareIdentifiers`). -/
inductive PreId where
  | num (n : Nat)
  | str (s : String)
deriving DecidableEq, Repr

/-- A parsed semantic version `major.minor.patch[-pre]`. Build metadata is
ignored by semver precedence and by the generator, so it is not modelled. -/
structure SemVer where
  major : Nat
  minor : Nat
  patch : Nat
  pre : List PreId
deriving DecidableEq, Repr

/-- Lexicographic string comparison (JS `<`/`>` on identifier strings). -/
def cmpStr (a b : String) : Ordering :=
  if a < b then .lt else if a = b then .eq else .gt

/-- node-semver comparison of two prerelease identifiers. -/
def cmpPreId : PreId → PreId → Ordering
  | .num a, .num b => compare a b
  | .num _, .str _ => .lt
  | .str _, .num _ => .gt
  | .str a, .str b => cmpStr a b

/-- node-semver comparison of prerelease identifier lists: identifier by
identifier, with a strict prefix comparing lower than the longer list. -/
def cmpPreList : List PreId → List PreId → Ordering
  | [], [] => .eq
  | [], _ :: _ => .lt
  | _ :: _, [] => .gt
  | a :: as, b :: bs =>
    match cmpPreId a b with
    | .eq => cmpPreList as bs
    | o => o

/-- Prerelease comparison at the version level: a version without prerelease
identifiers is greater than one with them; otherwise the lists decide. -/
def cmpPreTop : List PreId → List PreId → Ordering
  | [], [] => .eq
  | [], _ :: _ => .gt
  | _ :: _, [] => .lt
  | a :: as, b :: bs => cmpPreList (a :: as) (b :: bs)

/-- semver precedence: numeric core first, then the prerelease rule. -/
def semverCmp (a b : SemVer) : Ordering :=
  (compare a.major b.major).then ((compare a.minor b.minor).then
    ((compare a.patch b.patch).then (cmpPreTop a.pre b.pre)))

/-- `semver.gt` as used at release-version.ts:465/484. -/
def semverGt (a b : SemVer) : Bool :=
  match semverCmp a b with
  | .gt => true
  | _ => false

/-- `semver.prerelease(v)` truthiness: whether `v` carries prerelease
identifiers; `prerelease(currentVersion ?? '')` is falsy for a missing
version (release-version.ts:388). -/
def hasPrereleaseOpt : Option SemVer → Bool
  | some v => !v.pre.isEmpty
  | none => false

/-- The relative semver bump keywords (`semver.ReleaseType`). -/
inductive ReleaseType where
  | major
  | premajor
  | minor
  | preminor
  | patch
  | prepatch
  | prerelease
deriving DecidableEq, Repr

/-- Increment the last numeric prerelease identifier, `none` when there is no
numeric identifier (node-semver's backwards walk in `inc('pre')`). -/
def bumpLastNumeric : List PreId → Option (List PreId)
  | [] => none
  | x :: xs =>
    match bumpLastNumeric xs with
    | some ys => some (x :: ys)
    | none =>
      match x with
      | .num n => some (.num (n + 1) :: xs)
      | .str _ => none

/-- node-semver `inc('pre', identifier)` acting on the prerelease identifier
list: start at `[0]` when empty, otherwise bump the last numeric identifier or
append `0`; a configured identifier replaces the list by `[identifier, 0]`
unless it is already leading followed by a numeric identifier. -/
def incPre (pre : List PreId) (identifier : Option String) : List PreId :=
  let bumped :=
    if pre.isEmpty then [PreId.num 0]
    else (bumpLastNumeric pre).getD (pre ++ [PreId.num 0])
  match identifier with
  | none => bumped
  | some i =>
    let keep : Bool :=
      match bumped with
      | PreId.str s :: PreId.num _ :: _ => s = i
      | _ => false
    if keep then bumped else [PreId.str i, PreId.num 0]

/-- node-semver `inc(version, releaseType, identifier)`, the increment primitive
behind nx's `deriveNewSemverVersion`. -/
def semverInc (v : SemVer) (t : ReleaseType) (identifier : Option String) : SemVer :=
  match t with
  | .premajor => { major := v.major + 1, minor := 0, patch := 0, pre := incPre [] identifier }
  | .preminor => { major := v.major, minor := v.minor + 1, patch := 0, pre := incPre [] identifier }
  | .prepatch => { v with patch := v.patch + 1, pre := incPre [] identifier }
  | .prerelease =>
    if v.pre.isEmpty then { v with patch := v.patch + 1, pre := incPre [] identifier }
    else { v with pre := incPre v.pre identifier }
  | .major =>
    if v.minor ≠ 0 ∨ v.patch ≠ 0 ∨ v.pre.isEmpty then
      { major := v.major + 1, minor := 0, patch := 0, pre := [] }
    else { major := v.major, minor := 0, patch := 0, pre := [] }
  | .minor =>
    if v.patch ≠ 0 ∨ v.pre.isEmpty then
      { v with minor := v.minor + 1, patch := 0, pre := [] }
    else { v with patch := 0, pre := [] }
  | .patch =>
    if v.pre.isEmpty then { v with patch := v.patch + 1, pre := [] }
    else { v with pre := [] }

/-- A resolved specifier: a relative bump keyword or an explicit version. -/
inductive Specifier where
  | rel (t : ReleaseType)
  | exact (v : SemVer)
deriving DecidableEq, Repr

/-- nx `deriveNewSemverVersion` (release-version.ts:659/810): an explicit
version specifier passes through verbatim, a relative keyword is applied via
`semver.inc` with the configured preid. -/
def deriveNewSemverVersion (currentSemverVersion : SemVer) (specifier : Specifier)
    (preid : Option String) : SemVer :=
  match specifier with
  | .exact v => v
  | .rel t => semverInc currentSemverVersion t preid

/-- Render a prerelease identifier back to its string form. -/
def renderPreId : PreId → String
  | .num n => toString n
  | .str s => s

/-- Render a version back to its manifest string form. -/
def renderSemVer (v : SemVer) : String :=
  let core := toString v.major ++ "." ++ toString v.minor ++ "." ++ toString v.patch
  if v.pre.isEmpty then core
  else core ++ "-" ++ String.intercalate "." (v.pre.map renderPreId)

/-! ## Generator options and the local dependency graph -/

/-- `options.updateDependents`, defaulted to `never` (release-version.ts:91). -/
inductive UpdateDependentsMode where
  | never
  | auto
deriving DecidableEq, Repr

/-- The fixed bump applied to dependents, `updateDependentsBump = 'patch'`
(release-version.ts:92). -/
def updateDependentsBump : ReleaseType := .patch

/-- `options.specifierSource`. -/
inductive SpecifierSource where
  | conventionalCommits
  | prompt
  | versionPlans
deriving DecidableEq, Repr

/-- A local package dependency edge: `source`'s manifest declares a path
dependency on `target`, in the main collection or a named group. -/
structure LocalPackageDependency where
  source : Name
  target : Name
  dependencyCollection : String
  groupKey : Option Name := none
deriving DecidableEq, Repr

/-- A resolved version plan: per-project bumps (independent grouping) or one
group-wide bump (fixed grouping), with the plan file paths. -/
inductive VersionPlan where
  | projects (projectVersionBumps : List (Name × ReleaseType))
      (relativePath : String) (absolutePath : String)
  | group (groupVersionBump : ReleaseType)
      (relativePath : String) (absolutePath : String)
deriving DecidableEq, Repr

/-- Whether a plan declares a bump for `n`
(`plan.projectVersionBumps[dependentProject.source]` truthiness at
release-version.ts:594; a group plan applies to every project, line 596). -/
def planAppliesTo (plan : VersionPlan) (n : Name) : Bool :=
  match plan with
  | .projects bumps _ _ => bumps.any (fun pb => pb.1 == n)
  | .group _ _ _ => true

/-- `plan.projectVersionBumps[projectName]` for the independent-grouping
version-plans reduce (release-version.ts:457). -/
def planBumpFor (plan : VersionPlan) (n : Name) : Option ReleaseType :=
  match plan with
  | .projects bumps _ _ => (bumps.find? (fun pb => pb.1 == n)).map (fun pb => pb.2)
  | .group b _ _ => some b

/-! ## Specifier resolution strategies -/

/-- `options.specifier.replace(/^v/, '')` (release-version.ts:67): node's
`replace` with a non-global regex strips at most one leading `v`. -/
def stripLeadingV (s : String) : String :=
  match s.data with
  | 'v' :: rest => String.mk rest
  | _ => s

/-- Validation and `v`-stripping of a user-provided specifier
(release-version.ts:60-68); `isValidSemverSpecifier` is the external nx
primitive, taken as a parameter. An invalid specifier is a fatal error. -/
def setupProvidedSpecifier (isValidSemverSpecifier : String → Bool)
    (optSpecifier : Option String) : Except String (Option String) :=
  match optSpecifier with
  | none => .ok none
  | some s =>
    if isValidSemverSpecifier s then .ok (some (stripLeadingV s))
    else .error "The given version specifier is not valid."

/-- Map a classified bump keyword to its `pre`-prefixed variant, modelling the
string concatenation `pre${specifier}` (release-version.ts:396); only applied
when the keyword does not already start with `pre`. -/
def prefixPre : ReleaseType → ReleaseType
  | .major => .premajor
  | .minor => .preminor
  | .patch => .prepatch
  | t => t

/-- Whether `specifier.startsWith('pre')` (release-version.ts:395). -/
def startsWithPre : ReleaseType → Bool
  | .premajor => true
  | .preminor => true
  | .prepatch => true
  | .prerelease => true
  | _ => false

/-- The conventional-commits branch of specifier resolution
(release-version.ts:359-403), given the classification returned by the
external `resolveSemverSpecifierFromConventionalCommits`:
* no classification: force `updateDependentsBump` when propagation is enabled
  and an upstream bump was recorded for this project, else resolve to `null`;
* a prerelease current version forces the specifier to `prerelease`;
* otherwise a configured preid prefixes a non-`pre` keyword. -/
def resolveConventionalCommitsSpecifier (classified : Option ReleaseType)
    (currentVersion : Option SemVer) (updateDependents : UpdateDependentsMode)
    (hasDependencyBump : Bool) (preid : Option String) : Option ReleaseType :=
  match classified with
  | none =>
    if updateDependents ≠ .never ∧ hasDependencyBump then some updateDependentsBump
    else none
  | some t =>
    if hasPrereleaseOpt currentVersion then some .prerelease
    else if preid.isSome ∧ ¬ startsWithPre t then some (prefixPre t)
    else some t

/-- One step of the version-plans `reduce` (release-version.ts:455-470 and
472-487): a not-yet-set accumulator takes the plan's bump (possibly absent);
otherwise the bump producing the semver-greater new version wins and ties keep
the accumulator (the first-seen plan). -/
def vpStep (currentVersion : SemVer) (spec : Option ReleaseType)
    (bump : Option ReleaseType) : Option ReleaseType :=
  match spec with
  | none => bump
  | some s =>
    match bump with
    | none => some s
    | some b =>
      if semverGt (semverInc currentVersion b none) (semverInc currentVersion s none)
      then some b
      else some s

/-- The version-plans `reduce` over the per-plan bumps for the project. -/
def reduceVersionPlanBumps (currentVersion : SemVer)
    (bumps : List (Option ReleaseType)) : Option ReleaseType :=
  bumps.foldl (vpStep currentVersion) none

/-- The version-plans branch of specifier resolution (release-version.ts:451-510):
the reduce over plan bumps, then the same dependency-bump fallback as the
conventional-commits branch when nothing was resolved. -/
def resolveVersionPlansSpecifier (currentVersion : SemVer)
    (bumps : List (Option ReleaseType)) (updateDependents : UpdateDependentsMode)
    (hasDependencyBump : Bool) : Option ReleaseType :=
  match reduceVersionPlanBumps currentVersion bumps with
  | some s => some s
  | none =>
    if updateDependents ≠ .never ∧ hasDependencyBump then some updateDependentsBump
    else none

/-- The per-plan bump list fed to the reduce: independent grouping looks up the
project in each plan's `projectVersionBumps`, fixed grouping uses each plan's
`groupVersionBump`. -/
def planBumpsForProject (independent : Bool) (plans : List VersionPlan)
    (projectName : Name) : List (Option ReleaseType) :=
  if independent then plans.map (fun p => planBumpFor p projectName)
  else plans.map (fun p =>
    match p with
    | .projects _ _ _ => none
    | .group b _ _ => some b)

/-! ## The cross-iteration specifier state machine (options.specifier override) -/

/-- The loop-carried specifier state (release-version.ts:123-127): `none`
models `undefined` (not yet resolved), `some none` models a resolution to
`null` (no changes), `some (some s)` a resolved specifier. -/
structure SpecifierLoopState where
  specifier : Option (Option String)
  strategyCalls : Nat
deriving DecidableEq, Repr

/-- `options.specifierSource` after the per-iteration override: a provided
`options.specifier` forces the source to `prompt` (release-version.ts:305-311). -/
def effectiveSpecifierSource (optSpecifier : Option String)
    (specifierSource : SpecifierSource) : SpecifierSource :=
  if optSpecifier.isSome then .prompt else specifierSource

/-- One iteration of the specifier-resolution guard (release-version.ts:323-327):
the strategy block runs only when the specifier is still `undefined`, or when
the grouping is independent and no explicit specifier was provided. `strategy`
abstracts the selected strategy's outcome for the project. -/
def specifierIterationStep (optSpecifier : Option String) (independent : Bool)
    (strategy : Name → Option String) (st : SpecifierLoopState) (p : Name) :
    SpecifierLoopState × Option String :=
  if st.specifier.isNone ∨ (independent ∧ optSpecifier.isNone) then
    let s := strategy p
    ({ specifier := some s, strategyCalls := st.strategyCalls + 1 }, s)
  else (st, st.specifier.getD none)

/-- Fold step over projects: advance the specifier state and record the
specifier used for the project. -/
def specifierFoldStep (optSpecifier : Option String) (independent : Bool)
    (strategy : Name → Option String)
    (acc : SpecifierLoopState × List (Name × Option String)) (p : Name) :
    SpecifierLoopState × List (Name × Option String) :=
  let r := specifierIterationStep optSpecifier independent strategy acc.1 p
  (r.1, acc.2 ++ [(p, r.2)])

/-- Run the loop over all projects, recording the specifier used for each
project and how often a resolution strategy was consulted. The initial state
holds the provided specifier when there is one (release-version.ts:125-127). -/
def runSpecifierResolution (optSpecifier : Option String) (independent : Bool)
    (strategy : Name → Option String) (projectNames : List Name) :
    List (Name × Option String) × Nat :=
  let init : SpecifierLoopState :=
    { specifier := optSpecifier.map some, strategyCalls := 0 }
  let out := projectNames.foldl
    (specifierFoldStep optSpecifier independent strategy) (init, [])
  (out.2, out.1.strategyCalls)

/-! ## Dependent classification and the update-call ledger of one iteration -/

/-- `allDependentProjects` (release-version.ts:547-551): all local edges whose
target is the project currently being processed. `edges` stands for the
flattened values of `resolveLocalPackageDependencies`. -/
def allDependentProjects (edges : List LocalPackageDependency) (projectName : Name) :
    List LocalPackageDependency :=
  edges.filter (fun e => e.target == projectName)

/-- `transitiveLocalPackageDependents` (release-version.ts:553-566): when
`updateDependents` is `auto`, every edge targeting the source of a direct
dependent, collected per direct dependent. -/
def transitiveLocalPackageDependents (edges : List LocalPackageDependency)
    (projectName : Name) (updateDependents : UpdateDependentsMode) :
    List LocalPackageDependency :=
  if updateDependents = .auto then
    (allDependentProjects edges projectName).foldr
      (fun d acc => edges.filter (fun e => e.target == d.source) ++ acc) []
  else []

/-- The `circularDependencies` string-key set (release-version.ts:570-582):
for every direct dependent both directed keys `source:target` and
`target:source` are recorded (the guard `dependentProject.target === projectName`
holds for every element of `allDependentProjects`, which is filtered on
exactly that condition). -/
def circularDependencies (edges : List LocalPackageDependency) (projectName : Name) :
    Finset String :=
  (allDependentProjects edges projectName).foldl
    (fun acc d =>
      if d.target = projectName then
        insert (d.target ++ ":" ++ d.source) (insert (d.source ++ ":" ++ d.target) acc)
      else acc)
    ∅

/-- `isInCurrentBatch` (release-version.ts:584-598): membership of the
dependent's source in `options.projects`, refined under version-plans to
require the source to be touched by some resolved plan. -/
def isInCurrentBatch (optionsProjects : List Name) (specifierSource : SpecifierSource)
    (resolvedVersionPlans : List VersionPlan) (src : Name) : Bool :=
  let inBatch := optionsProjects.any (fun p => p == src)
  if inBatch ∧ specifierSource = .versionPlans then
    resolvedVersionPlans.any (fun plan => planAppliesTo plan src)
  else inBatch

/-- One recorded call to `updateDependentProjectAndAddToVersionData`:
which dependent edge it was invoked for and the `forceVersionBump` argument
(`none` models `false`). -/
structure UpdateCall where
  dependentProject : LocalPackageDependency
  forceVersionBump : Option ReleaseType
deriving DecidableEq, Repr

/-- The calls of the in-batch dependent loop (release-version.ts:834-853):
every in-batch dependent is recorded with `forceVersionBump: false`. -/
def inBatchDependentCalls (edges : List LocalPackageDependency) (projectName : Name)
    (optionsProjects : List Name) (specifierSource : SpecifierSource)
    (plans : List VersionPlan) : List UpdateCall :=
  ((allDependentProjects edges projectName).filter
      (fun d => isInCurrentBatch optionsProjects specifierSource plans d.source)).map
    (fun d => { dependentProject := d, forceVersionBump := none })

/-- The calls of the out-of-batch dependent loop (release-version.ts:855-880),
executed only in `auto` mode: a forced `updateDependentsBump`, except under
version-plans when the dependent is in the sorted projects list. -/
def outOfBatchDependentCalls (edges : List LocalPackageDependency) (projectName : Name)
    (optionsProjects sortedProjects : List Name) (updateDependents : UpdateDependentsMode)
    (specifierSource : SpecifierSource) (plans : List VersionPlan) : List UpdateCall :=
  if updateDependents = .auto then
    ((allDependentProjects edges projectName).filter
        (fun d => ! isInCurrentBatch optionsProjects specifierSource plans d.source)).map
      (fun d =>
        { dependentProject := d,
          forceVersionBump :=
            if specifierSource = .versionPlans ∧ sortedProjects.any (fun p => p == d.source)
            then none
            else some updateDependentsBump })
  else []

/-- The calls of the transitive dependent loop (release-version.ts:881-917):
a forced `updateDependentsBump` unless the edge's directed key is flagged in
the circular-dependency set. -/
def transitiveDependentCalls (edges : List LocalPackageDependency) (projectName : Name)
    (updateDependents : UpdateDependentsMode) : List UpdateCall :=
  (transitiveLocalPackageDependents edges projectName updateDependents).map
    (fun d =>
      { dependentProject := d,
        forceVersionBump :=
          if (d.source ++ ":" ++ d.target) ∈ circularDependencies edges projectName
          then none
          else some updateDependentsBump })

/-- The full ordered ledger of `updateDependentProjectAndAddToVersionData`
calls made while processing one project with a non-null specifier
(release-version.ts:834-917). -/
def iterationUpdateCalls (edges : List LocalPackageDependency) (projectName : Name)
    (optionsProjects sortedProjects : List Name) (updateDependents : UpdateDependentsMode)
    (specifierSource : SpecifierSource) (plans : List VersionPlan) : List UpdateCall :=
  inBatchDependentCalls edges projectName optionsProjects specifierSource plans
    ++ outOfBatchDependentCalls edges projectName optionsProjects sortedProjects
        updateDependents specifierSource plans
    ++ transitiveDependentCalls edges projectName updateDependents

/-! ## The per-project iteration outcome (versionData entry and writes) -/

/-- One `versionData` entry: `{currentVersion, newVersion, dependentProjects}`
(release-version.ts:637-646). Versions are recorded in their string form;
`currentVersion` may be `null` for a dependent without a version field. -/
structure VersionDataEntry where
  currentVersion : Option String
  newVersion : Option String
  dependentProjects : List LocalPackageDependency
deriving DecidableEq, Repr

/-- The `{ groupKey, ...rest }` destructuring at release-version.ts:642-645. -/
def stripGroupKey (e : LocalPackageDependency) : LocalPackageDependency :=
  { e with groupKey := none }

/-- Outcome of one loop iteration from the point the specifier is settled
(release-version.ts:631-921): the `versionData` entry for the project, the
ordered list of projects whose manifests the iteration writes, and whether the
buffered logs were flushed. -/
structure ProjectIterationResult where
  entry : VersionDataEntry
  manifestWrites : List Name
  flushedLogs : Bool
deriving DecidableEq, Repr

/-- The iteration tail for an already-resolved specifier: record the entry with
`newVersion: null` and the dependent list (all dependents in `auto` mode,
in-batch dependents otherwise); a null specifier skips every manifest write and
flushes logs only when unchanged-project logging is enabled; otherwise the new
version is derived, the project's own manifest is written, and every
ledgered dependent update writes the dependent's manifest
(well-formed dependent manifests assumed). -/
def processProject (edges : List LocalPackageDependency) (projectName : Name)
    (currentVersion : SemVer) (specifier : Option Specifier)
    (optionsProjects sortedProjects : List Name) (updateDependents : UpdateDependentsMode)
    (specifierSource : SpecifierSource) (plans : List VersionPlan)
    (logUnchangedProjects : Bool) (preid : Option String) : ProjectIterationResult :=
  let allDeps := allDependentProjects edges projectName
  let inBatchDeps := allDeps.filter
    (fun d => isInCurrentBatch optionsProjects specifierSource plans d.source)
  let entryNull : VersionDataEntry :=
    { currentVersion := some (renderSemVer currentVersion),
      newVersion := none,
      dependentProjects :=
        if updateDependents = .auto then allDeps.map stripGroupKey
        else inBatchDeps.map stripGroupKey }
  match specifier with
  | none =>
    { entry := entryNull, manifestWrites := [], flushedLogs := logUnchangedProjects }
  | some sp =>
    let newVersion := deriveNewSemverVersion currentVersion sp preid
    { entry := { entryNull with newVersion := some (renderSemVer newVersion) },
      manifestWrites :=
        projectName ::
          (iterationUpdateCalls edges projectName optionsProjects sortedProjects
              updateDependents specifierSource plans).map
            (fun c => c.dependentProject.source),
      flushedLogs := true }

/-! ## Topological orderer (modelled from the spec) -/

/-- A project is ready to be emitted when none of its dependencies is still
waiting (dependencies outside the remaining set are already emitted or not
selected). -/
def topoReady (dependsOn : Name → List Name) (remaining : List Name) (p : Name) : Bool :=
  (dependsOn p).all (fun d => decide (d ∉ remaining))

/-- Kahn-style rounds with explicit fuel: emit every ready project, recurse on
the rest; when no project is ready (a cycle among the remaining projects), the
remaining projects are emitted as-is so that every project is emitted exactly
once and the sort cannot loop. -/
def topoRounds (dependsOn : Name → List Name) : Nat → List Name → List Name
  | 0, remaining => remaining
  | fuel + 1, remaining =>
    if (remaining.filter (topoReady dependsOn remaining)).isEmpty then remaining
    else
      remaining.filter (topoReady dependsOn remaining) ++
        topoRounds dependsOn fuel
          (remaining.filter (fun p => ! topoReady dependsOn remaining p))

/-- Modelled from the spec: `sortProjectsTopologically`
(`utils/sort-projects-topologically`, not among the sources at hand) —
"standard dependency-first topological sort … over the local edge set
restricted to selected projects", emitting dependencies before dependents and
emitting every project of a cycle exactly once (spec §4.2). -/
def sortProjectsTopologically (dependsOn : Name → List Name)
    (projectNames : List Name) : List Name :=
  topoRounds dependsOn projectNames.length projectNames

/-- The processing order of the main loop (release-version.ts:96-99): the
user-supplied order when `updateDependents` is `never`, the topological order
otherwise. -/
def projectsToProcess (updateDependents : UpdateDependentsMode)
    (dependsOn : Name → List Name) (optionsProjects : List Name) : List Name :=
  if updateDependents = .never then optionsProjects
  else sortProjectsTopologically dependsOn optionsProjects

/-! ## The dependent manifest update (`updateDependentProjectAndAddToVersionData`) -/

/-- A dependency entry of a poetry manifest: a plain version string or a table
`\x7b version?, path?, develop?, extras? \x7d` of which only `version` is
relevant to the update. -/
inductive TomlDep where
  | str (version : String)
  | table (version : Option String)
deriving DecidableEq, Repr

/-- The `tool.poetry` table of a dependent's pyproject.toml; the version field
is kept parsed, dependency specs are kept as strings. -/
structure PoetryTable where
  name : String
  version : Option SemVer
  dependencies : List (String × TomlDep)
  groups : List (String × List (String × TomlDep))
deriving DecidableEq, Repr

/-- Look up a dependency entry by package name. -/
def lookupDep (deps : List (String × TomlDep)) (n : String) : Option TomlDep :=
  (deps.find? (fun d => d.1 == n)).map (fun d => d.2)

/-- The dependency collection selected by the edge:
`tool.poetry.dependencies` for the main collection, else
`tool.poetry.group[groupKey]?.dependencies` (release-version.ts:731-745). -/
def collectionFor (py : PoetryTable) (e : LocalPackageDependency) :
    List (String × TomlDep) :=
  if e.dependencyCollection == "dependencies" then py.dependencies
  else
    match e.groupKey with
    | some g => ((py.groups.find? (fun gr => gr.1 == g)).map (fun gr => gr.2)).getD []
    | none => []

/-- Modelled from the spec: `extractDependencyVersion`
(`utils/package`, not among the sources at hand) — per the manifest contract
of spec §6 a dependency collection maps a dependency name to either a version
string or an object carrying a `version` field; the extracted value is that
declared version string. -/
def extractDependencyVersion (deps : List (String × TomlDep)) (depName : String) :
    Option String :=
  match lookupDep deps depName with
  | some (.str v) => some v
  | some (.table v) => v
  | none => none

/-- Replace the declared version of `depName` by `newSpec`: a string entry is
replaced outright, a table entry with a `version` field gets it replaced, a
table entry without one is left untouched (release-version.ts:786-805);
`none` models the TypeError raised when the entry is absent. -/
def setDepSpec (deps : List (String × TomlDep)) (depName newSpec : String) :
    Option (List (String × TomlDep)) :=
  match lookupDep deps depName with
  | none => none
  | some (.str _) => some (deps.map (fun d => if d.1 == depName then (d.1, .str newSpec) else d))
  | some (.table v) =>
    if v.isSome then
      some (deps.map (fun d => if d.1 == depName then (d.1, .table (some newSpec)) else d))
    else some deps

/-- `setDepSpec` applied inside the collection the edge points at. -/
def updateDepInManifest (py : PoetryTable) (e : LocalPackageDependency)
    (depName newSpec : String) : Option PoetryTable :=
  if e.dependencyCollection == "dependencies" then
    (setDepSpec py.dependencies depName newSpec).map
      (fun ds => { py with dependencies := ds })
  else
    match e.groupKey with
    | some g =>
      (setDepSpec (collectionFor py e) depName newSpec).map
        (fun ds =>
          let newGroups := py.groups.map (fun gr => if gr.1 == g then (gr.1, ds) else gr)
          { py with groups := newGroups })
    | none => none

/-- Outcome of one `updateDependentProjectAndAddToVersionData` call:
the early return on a missing `tool.poetry` table (no write), the TypeError on
an absent dependency entry, or the written manifest plus the optional
`versionData` record for the dependent. -/
inductive DependentUpdateOutcome where
  | skipped
  | errored
  | updated (written : PoetryTable) (entry : Option (Name × VersionDataEntry))
deriving DecidableEq, Repr

/-- `updateDependentProjectAndAddToVersionData` (release-version.ts:702-832).
`pyproject = none` models a manifest without a `tool.poetry` table.
`prefixCfg` is `options.versionPrefix` (absent means `auto`),
`transitiveDeps` the captured `transitiveLocalPackageDependents`. -/
def updateDependentProjectAndAddToVersionData (pyproject : Option PoetryTable)
    (dependentProject : LocalPackageDependency) (dependencyPackageName : String)
    (newDependencyVersion : String) (forceVersionBump : Option ReleaseType)
    (prefixCfg : Option String) (preserveLocalDependencyProtocols : Bool)
    (preid : Option String) (transitiveDeps : List LocalPackageDependency) :
    DependentUpdateOutcome :=
  match pyproject with
  | none => .skipped
  | some py =>
    let currentDependencyVersion :=
      extractDependencyVersion (collectionFor py dependentProject) dependencyPackageName
    match py.version with
    | none =>
      let entry :=
        if forceVersionBump.isSome then
          some (dependentProject.source,
            { currentVersion := none,
              newVersion := currentDependencyVersion,
              dependentProjects :=
                transitiveDeps.filter (fun e => e.target == dependentProject.source) })
        else none
      .updated py entry
    | some currentPackageVersion =>
      let prefix0 := prefixCfg.getD "auto"
      let inferred :=
        match currentDependencyVersion with
        | some cdv =>
          if cdv.startsWith "~" then "~"
          else if cdv.startsWith "^" then "^"
          else ""
        | none => ""
      let pfx := if prefix0 == "auto" then inferred else prefix0
      let afterDep :=
        if ¬ preserveLocalDependencyProtocols then
          updateDepInManifest py dependentProject dependencyPackageName
            (pfx ++ newDependencyVersion)
        else some py
      match afterDep with
      | none => .errored
      | some py1 =>
        match forceVersionBump with
        | some bump =>
          let newPackageVersion :=
            deriveNewSemverVersion currentPackageVersion (.rel bump) preid
          .updated { py1 with version := some newPackageVersion }
            (some (dependentProject.source,
              { currentVersion := some (renderSemVer currentPackageVersion),
                newVersion := some (renderSemVer newPackageVersion),
                dependentProjects :=
                  transitiveDeps.filter (fun e => e.target == dependentProject.source) }))
        | none => .updated py1 none

/-! ## The deferred-side-effect result callback -/

/-- Observable behavior of the result callback (release-version.ts:930-960):
the returned file lists, the directories where `poetry lock` ran, and the plan
files actually removed. -/
structure CallbackResult where
  changedFiles : List String
  deletedFiles : List String
  ranPoetryLockIn : List String
  removedPlanFiles : List String
deriving DecidableEq, Repr

/-- The result callback, as a function of the collected
`deleteVersionPlanCallbacks` data (absolute and relative path per scheduled
plan deletion, release-version.ts:512-525), the collected `poetryLocks`
directories, whether the workspace root has a pyproject.toml, and the dry-run
flag: each plan callback removes its file and reports the relative path only
outside dry runs; per-project `poetry.lock` paths are always reported; lock
regeneration and the root `poetry.lock` entry happen only outside dry runs. -/
def resultCallback (planDeletions : List (String × String)) (poetryLocks : List String)
    (rootHasPyproject : Bool) (dryRun : Bool) : CallbackResult :=
  let deletedFiles := if dryRun then [] else planDeletions.map (fun p => p.2)
  let removedPlanFiles := if dryRun then [] else planDeletions.map (fun p => p.1)
  let changedFiles0 := poetryLocks.map (fun d => d ++ "/poetry.lock")
  let ranLocks := if dryRun then [] else poetryLocks
  if ¬ dryRun ∧ rootHasPyproject then
    { changedFiles := changedFiles0 ++ ["poetry.lock"],
      deletedFiles := deletedFiles,
      ranPoetryLockIn := ranLocks ++ ["."],
      removedPlanFiles := removedPlanFiles }
  else
    { changedFiles := changedFiles0,
      deletedFiles := deletedFiles,
      ranPoetryLockIn := ranLocks,
      removedPlanFiles := removedPlanFiles }


/-- Spec-side characterization of the version-plans selection (spec §4.3):
among the bumps of all plans touching the project, `r` yields the
semver-greatest resulting version when applied to the current version, and on
ties the first-seen plan's bump is kept (no earlier bump attains `r`'s
resulting version). -/
def IsFirstMax (cur : SemVer) (touched : List ReleaseType) (r : ReleaseType) : Prop :=
  (∀ b ∈ touched,
      semverGt (semverInc cur b none) (semverInc cur r none) = false) ∧
  ∃ l1 l2, touched = l1 ++ r :: l2 ∧
    ∀ b ∈ l1, semverInc cur b none ≠ semverInc cur r none

/-! ## Order-theoretic facts about the semver comparison -/

theorem cmpStr_eq_iff {a b : String} : cmpStr a b = .eq ↔ a = b := by
  unfold cmpStr
  rcases lt_trichotomy a b with h | h | h
  · simp [h, ne_of_lt h]
  · simp [h]
  · simp [not_lt_of_gt h, (ne_of_lt h).symm]

theorem cmpStr_lt_iff {a b : String} : cmpStr a b = .lt ↔ a < b := by
  unfold cmpStr
  rcases lt_trichotomy a b with h | h | h
  · simp [h]
  · simp [h, lt_irrefl]
  · simp [not_lt_of_gt h, (ne_of_lt h).symm, not_lt_of_gt h]

theorem cmpStr_swap (a b : String) : cmpStr b a = (cmpStr a b).swap := by
  unfold cmpStr
  rcases lt_trichotomy a b with h | h | h
  · simp [h, not_lt_of_gt h, (ne_of_lt h).symm, Ordering.swap]
  · simp [h, lt_irrefl, Ordering.swap]
  · simp [h, not_lt_of_gt h, ne_of_lt h, (ne_of_lt h).symm, Ordering.swap]

theorem cmpPreId_eq_iff {a b : PreId} : cmpPreId a b = .eq ↔ a = b := by
  cases a <;> cases b
  case num.num m n => simpa [cmpPreId] using Nat.compare_eq_eq
  case num.str m s => simp [cmpPreId]
  case str.num s m => simp [cmpPreId]
  case str.str s t => simpa [cmpPreId] using cmpStr_eq_iff

theorem cmpPreId_swap (a b : PreId) : cmpPreId b a = (cmpPreId a b).swap := by
  cases a <;> cases b
  case num.num m n => exact (Nat.compare_swap m n).symm
  case num.str m s => rfl
  case str.num s m => rfl
  case str.str s t => exact cmpStr_swap s t

theorem cmpPreId_lt_trans {a b c : PreId} (h1 : cmpPreId a b = .lt)
    (h2 : cmpPreId b c = .lt) : cmpPreId a c = .lt := by
  cases a <;> cases b <;> cases c <;> simp only [cmpPreId] at h1 h2 ⊢ <;> try rfl
  case num.num.num x y z =>
    rw [Nat.compare_eq_lt] at h1 h2 ⊢
    omega
  case num.str.num _ _ _ => cases h2
  case str.num.num _ _ _ => cases h1
  case str.num.str _ _ _ => cases h1
  case str.str.num _ _ _ => cases h2
  case str.str.str x y z =>
    rw [cmpStr_lt_iff] at h1 h2 ⊢
    exact lt_trans h1 h2

theorem cmpPreList_eq_iff : ∀ {l1 l2 : List PreId}, cmpPreList l1 l2 = .eq ↔ l1 = l2
  | [], [] => by simp [cmpPreList]
  | [], _ :: _ => by simp [cmpPreList]
  | _ :: _, [] => by simp [cmpPreList]
  | a :: as, b :: bs => by
    simp only [cmpPreList, List.cons.injEq]
    cases h : cmpPreId a b
    · simp only [reduceCtorEq, false_iff, not_and]
      intro hab
      rw [hab, cmpPreId_eq_iff.2 rfl] at h
      cases h
    · simp only [cmpPreId_eq_iff.1 h, true_and]
      exact cmpPreList_eq_iff
    · simp only [reduceCtorEq, false_iff, not_and]
      intro hab
      rw [hab, cmpPreId_eq_iff.2 rfl] at h
      cases h

theorem cmpPreList_swap : ∀ (l1 l2 : List PreId), cmpPreList l2 l1 = (cmpPreList l1 l2).swap
  | [], [] => rfl
  | [], _ :: _ => rfl
  | _ :: _, [] => rfl
  | a :: as, b :: bs => by
    simp only [cmpPreList, cmpPreId_swap a b]
    cases cmpPreId a b
    · rfl
    · simpa [Ordering.swap] using cmpPreList_swap as bs
    · rfl

theorem cmpPreList_lt_trans : ∀ {l1 l2 l3 : List PreId}, cmpPreList l1 l2 = .lt →
    cmpPreList l2 l3 = .lt → cmpPreList l1 l3 = .lt
  | [], [], _, h1, _ => by cases h1
  | [], _ :: _, [], _, h2 => by cases h2
  | [], _ :: _, _ :: _, _, _ => rfl
  | _ :: _, [], _, h1, _ => by cases h1
  | _ :: _, _ :: _, [], _, h2 => by cases h2
  | a :: as, b :: bs, c :: cs, h1, h2 => by
    simp only [cmpPreList] at h1 h2 ⊢
    cases hab : cmpPreId a b <;> rw [hab] at h1
    · cases hbc : cmpPreId b c <;> rw [hbc] at h2
      · rw [cmpPreId_lt_trans hab hbc]
      · rw [cmpPreId_eq_iff.1 hbc] at hab
        rw [hab]
      · cases h2
    · rw [cmpPreId_eq_iff.1 hab]
      cases hbc : cmpPreId b c <;> rw [hbc] at h2 <;>
        first
        | rfl
        | exact cmpPreList_lt_trans h1 h2
        | cases h2
    · cases h1

theorem cmpPreTop_eq_iff : ∀ {l1 l2 : List PreId}, cmpPreTop l1 l2 = .eq ↔ l1 = l2
  | [], [] => by simp [cmpPreTop]
  | [], _ :: _ => by simp [cmpPreTop]
  | _ :: _, [] => by simp [cmpPreTop]
  | a :: as, b :: bs => by
    simpa [cmpPreTop] using @cmpPreList_eq_iff (a :: as) (b :: bs)

theorem cmpPreTop_swap : ∀ (l1 l2 : List PreId), cmpPreTop l2 l1 = (cmpPreTop l1 l2).swap
  | [], [] => rfl
  | [], _ :: _ => rfl
  | _ :: _, [] => rfl
  | a :: as, b :: bs => by
    show cmpPreList (b :: bs) (a :: as) = (cmpPreList (a :: as) (b :: bs)).swap
    exact cmpPreList_swap (a :: as) (b :: bs)

theorem cmpPreTop_lt_trans : ∀ {l1 l2 l3 : List PreId}, cmpPreTop l1 l2 = .lt →
    cmpPreTop l2 l3 = .lt → cmpPreTop l1 l3 = .lt
  | [], [], _, h1, _ => by cases h1
  | [], _ :: _, _, h1, _ => by cases h1
  | _ :: _, [], [], _, h2 => by cases h2
  | _ :: _, [], _ :: _, _, h2 => by cases h2
  | _ :: _, _ :: _, [], _, _ => rfl
  | _ :: _, _ :: _, _ :: _, h1, h2 => by
    exact cmpPreList_lt_trans h1 h2

theorem semverCmp_eq_iff {a b : SemVer} : semverCmp a b = .eq ↔ a = b := by
  unfold semverCmp
  rw [Ordering.then_eq_eq, Ordering.then_eq_eq, Ordering.then_eq_eq,
    Nat.compare_eq_eq, Nat.compare_eq_eq, Nat.compare_eq_eq, cmpPreTop_eq_iff]
  obtain ⟨am, an, ap, al⟩ := a
  obtain ⟨bm, bn, bp, bl⟩ := b
  simp only [SemVer.mk.injEq]

theorem semverCmp_swap (a b : SemVer) : semverCmp b a = (semverCmp a b).swap := by
  unfold semverCmp
  rw [Ordering.swap_then, Ordering.swap_then, Ordering.swap_then,
    Nat.compare_swap, Nat.compare_swap, Nat.compare_swap,
    cmpPreTop_swap]

theorem semverCmp_eq_lt_iff {a b : SemVer} : semverCmp a b = .lt ↔
    a.major < b.major ∨ a.major = b.major ∧
      (a.minor < b.minor ∨ a.minor = b.minor ∧
        (a.patch < b.patch ∨ a.patch = b.patch ∧ cmpPreTop a.pre b.pre = .lt)) := by
  unfold semverCmp
  rw [Ordering.then_eq_lt, Ordering.then_eq_lt, Ordering.then_eq_lt,
    Nat.compare_eq_lt, Nat.compare_eq_lt, Nat.compare_eq_lt,
    Nat.compare_eq_eq, Nat.compare_eq_eq, Nat.compare_eq_eq]

theorem semverCmp_lt_trans {a b c : SemVer} (h1 : semverCmp a b = .lt)
    (h2 : semverCmp b c = .lt) : semverCmp a c = .lt := by
  rw [semverCmp_eq_lt_iff] at h1 h2 ⊢
  rcases h1 with h1 | ⟨e1, h1⟩ <;> rcases h2 with h2 | ⟨e2, h2⟩
  · exact Or.inl (by omega)
  · exact Or.inl (by omega)
  · exact Or.inl (by omega)
  · refine Or.inr ⟨by omega, ?_⟩
    rcases h1 with h1 | ⟨f1, h1⟩ <;> rcases h2 with h2 | ⟨f2, h2⟩
    · exact Or.inl (by omega)
    · exact Or.inl (by omega)
    · exact Or.inl (by omega)
    · refine Or.inr ⟨by omega, ?_⟩
      rcases h1 with h1 | ⟨g1, h1⟩ <;> rcases h2 with h2 | ⟨g2, h2⟩
      · exact Or.inl (by omega)
      · exact Or.inl (by omega)
      · exact Or.inl (by omega)
      · exact Or.inr ⟨by omega, cmpPreTop_lt_trans h1 h2⟩

theorem semverGt_eq_true_iff {a b : SemVer} : semverGt a b = true ↔ semverCmp a b = .gt := by
  unfold semverGt
  cases semverCmp a b <;> simp

theorem semverGt_iff_lt {a b : SemVer} : semverGt a b = true ↔ semverCmp b a = .lt := by
  rw [semverGt_eq_true_iff, semverCmp_swap b a]
  cases semverCmp b a <;> simp [Ordering.swap]

theorem semverGt_irrefl (a : SemVer) : semverGt a a = false := by
  have h : semverCmp a a = .eq := semverCmp_eq_iff.2 rfl
  unfold semverGt
  rw [h]

theorem semverGt_trans {a b c : SemVer} (h1 : semverGt a b = true)
    (h2 : semverGt b c = true) : semverGt a c = true := by
  rw [semverGt_iff_lt] at h1 h2 ⊢
  exact semverCmp_lt_trans h2 h1

theorem eq_of_not_semverGt {a b : SemVer} (h1 : ¬ semverGt a b = true)
    (h2 : ¬ semverGt b a = true) : a = b := by
  rw [semverGt_eq_true_iff] at h1
  rw [semverGt_iff_lt] at h2
  cases h : semverCmp a b
  · exact absurd h h2
  · exact semverCmp_eq_iff.1 h
  · exact absurd h h1

/-! ## Strict monotonicity of the semver increment -/

theorem cmpPreList_append_lt : ∀ (l : List PreId) (x : PreId),
    cmpPreList l (l ++ [x]) = .lt
  | [], _ => rfl
  | a :: as, x => by
    simp only [List.cons_append, cmpPreList, cmpPreId_eq_iff.2 (rfl : a = a)]
    exact cmpPreList_append_lt as x

theorem cmpPreList_bumpLastNumeric : ∀ {l l' : List PreId},
    bumpLastNumeric l = some l' → cmpPreList l l' = .lt
  | [], _, h => by cases h
  | x :: xs, l', h => by
    simp only [bumpLastNumeric] at h
    cases hxs : bumpLastNumeric xs with
    | some ys =>
      rw [hxs] at h
      cases h
      simp only [cmpPreList, cmpPreId_eq_iff.2 (rfl : x = x)]
      exact cmpPreList_bumpLastNumeric hxs
    | none =>
      rw [hxs] at h
      cases x with
      | num n =>
        cases h
        simp only [cmpPreList, cmpPreId, Nat.compare_eq_lt.2 (Nat.lt_succ_self n)]
      | str s => cases h

theorem cmpPreTop_eq_lt_of_cmpPreList {a : PreId} {as l' : List PreId}
    (h : cmpPreList (a :: as) l' = .lt) : cmpPreTop (a :: as) l' = .lt := by
  cases l' with
  | nil => cases h
  | cons b bs => exact h

theorem cmpPreTop_incPre_lt (a : PreId) (as : List PreId) :
    cmpPreTop (a :: as) (incPre (a :: as) none) = .lt := by
  apply cmpPreTop_eq_lt_of_cmpPreList
  show cmpPreList (a :: as) ((bumpLastNumeric (a :: as)).getD ((a :: as) ++ [PreId.num 0])) = .lt
  cases h : bumpLastNumeric (a :: as) with
  | some l' =>
    simpa using cmpPreList_bumpLastNumeric h
  | none =>
    simpa using cmpPreList_append_lt (a :: as) (.num 0)

theorem semverCmp_lt_inc_none (v : SemVer) (t : ReleaseType) :
    semverCmp v (semverInc v t none) = .lt := by
  rw [semverCmp_eq_lt_iff]
  obtain ⟨M, m, p, pre⟩ := v
  cases t
  case major =>
    simp only [semverInc]
    split
    · exact Or.inl (by dsimp only; omega)
    · rename_i h
      push_neg at h
      obtain ⟨hm, hp, hpre⟩ := h
      refine Or.inr ⟨rfl, Or.inr ⟨by simpa using hm, Or.inr ⟨by simpa using hp, ?_⟩⟩⟩
      cases pre with
      | nil => simp at hpre
      | cons a as => rfl
  case minor =>
    simp only [semverInc]
    split
    · rename_i h
      rcases h with h | h
      · exact Or.inr ⟨rfl, Or.inl (by dsimp only; omega)⟩
      · exact Or.inr ⟨rfl, Or.inl (by dsimp only; omega)⟩
    · rename_i h
      push_neg at h
      obtain ⟨hp, hpre⟩ := h
      refine Or.inr ⟨rfl, Or.inr ⟨rfl, Or.inr ⟨by simpa using hp, ?_⟩⟩⟩
      cases pre with
      | nil => simp at hpre
      | cons a as => rfl
  case patch =>
    simp only [semverInc]
    split
    · exact Or.inr ⟨rfl, Or.inr ⟨rfl, Or.inl (by dsimp only; omega)⟩⟩
    · rename_i h
      refine Or.inr ⟨rfl, Or.inr ⟨rfl, Or.inr ⟨rfl, ?_⟩⟩⟩
      cases pre with
      | nil => simp at h
      | cons a as => rfl
  case prerelease =>
    simp only [semverInc]
    split
    · exact Or.inr ⟨rfl, Or.inr ⟨rfl, Or.inl (by dsimp only; omega)⟩⟩
    · rename_i h
      refine Or.inr ⟨rfl, Or.inr ⟨rfl, Or.inr ⟨rfl, ?_⟩⟩⟩
      cases pre with
      | nil => simp at h
      | cons a as => exact cmpPreTop_incPre_lt a as
  case prepatch =>
    exact Or.inr ⟨rfl, Or.inr ⟨rfl, Or.inl (Nat.lt_succ_self p)⟩⟩
  case preminor =>
    exact Or.inr ⟨rfl, Or.inl (Nat.lt_succ_self m)⟩
  case premajor =>
    exact Or.inl (Nat.lt_succ_self M)

theorem semverGt_inc_none (v : SemVer) (t : ReleaseType) :
    semverGt (semverInc v t none) v = true :=
  semverGt_iff_lt.2 (semverCmp_lt_inc_none v t)

theorem semverInc_patch_ignores_preid (v : SemVer) (preid : Option String) :
    semverInc v .patch preid = semverInc v .patch none := rfl

theorem semverGt_inc_patch (v : SemVer) (preid : Option String) :
    semverGt (semverInc v .patch preid) v = true := by
  rw [semverInc_patch_ignores_preid]
  exact semverGt_inc_none v .patch

/-! ## The version-plans reduce computes the first-seen semver maximum -/

theorem semverGt_eq_false_of_eq {a b : SemVer} (h : a = b) : semverGt a b = false := by
  rw [h]
  exact semverGt_irrefl b

theorem vpStep_foldl_spec (cur : SemVer) :
    ∀ (bumps : List (Option ReleaseType)) (touched : List ReleaseType)
      (st : Option ReleaseType),
      (st = none → touched = []) →
      (∀ r, st = some r → IsFirstMax cur touched r) →
      (bumps.foldl (vpStep cur) st = none → touched ++ bumps.filterMap id = []) ∧
      ∀ r, bumps.foldl (vpStep cur) st = some r →
        IsFirstMax cur (touched ++ bumps.filterMap id) r
  | [], touched, st, h0, hs => by
    simp only [List.foldl_nil, List.filterMap_nil, List.append_nil]
    exact ⟨h0, hs⟩
  | none :: bs, touched, st, h0, hs => by
    simp only [List.foldl_cons, List.filterMap_cons]
    have hstep : vpStep cur st none = st := by
      cases st <;> rfl
    rw [hstep]
    exact vpStep_foldl_spec cur bs touched st h0 hs
  | some x :: bs, touched, st, h0, hs => by
    simp only [List.foldl_cons, List.filterMap_cons]
    cases st with
    | none =>
      have htouched : touched = [] := h0 rfl
      subst htouched
      have hstep : vpStep cur none (some x) = some x := rfl
      rw [hstep]
      have ih := vpStep_foldl_spec cur bs [x] (some x)
        (fun h => by cases h)
        (fun r hr => by
          cases hr
          refine ⟨?_, [], [], rfl, ?_⟩
          · intro b hb
            rw [List.mem_singleton] at hb
            subst hb
            exact semverGt_irrefl _
          · intro b hb
            cases hb)
      simpa using ih
    | some s =>
      have hfm : IsFirstMax cur touched s := hs s rfl
      have hstep : vpStep cur (some s) (some x) =
          if semverGt (semverInc cur x none) (semverInc cur s none) then some x
          else some s := rfl
      rw [hstep]
      by_cases hgt : semverGt (semverInc cur x none) (semverInc cur s none) = true
      · rw [if_pos hgt]
        have hfm' : IsFirstMax cur (touched ++ [x]) x := by
          obtain ⟨hmax, l1, l2, hsplit, hne⟩ := hfm
          constructor
          · intro b hb
            rw [List.mem_append, List.mem_singleton] at hb
            rcases hb with hb | hb
            · by_contra hc
              rw [Bool.not_eq_false] at hc
              have : semverGt (semverInc cur b none) (semverInc cur s none) = true :=
                semverGt_trans hc hgt
              rw [hmax b hb] at this
              cases this
            · subst hb
              exact semverGt_irrefl _
          · refine ⟨touched, [], rfl, ?_⟩
            intro b hb
            intro heq
            have : semverGt (semverInc cur b none) (semverInc cur s none) = true := by
              rw [heq]
              exact hgt
            rw [hmax b hb] at this
            cases this
        have ih := vpStep_foldl_spec cur bs (touched ++ [x]) (some x)
          (fun h => by cases h)
          (fun r hr => by
            cases hr
            exact hfm')
        constructor
        · intro h
          have := ih.1 h
          simp only [List.append_assoc] at this ⊢
          simp only [List.singleton_append] at this
          exact this
        · intro r hr
          have := ih.2 r hr
          simpa [List.append_assoc] using this
      · rw [if_neg hgt]
        rw [Bool.not_eq_true] at hgt
        have hfm' : IsFirstMax cur (touched ++ [x]) s := by
          obtain ⟨hmax, l1, l2, hsplit, hne⟩ := hfm
          constructor
          · intro b hb
            rw [List.mem_append, List.mem_singleton] at hb
            rcases hb with hb | hb
            · exact hmax b hb
            · subst hb
              exact hgt
          · refine ⟨l1, l2 ++ [x], ?_, hne⟩
            rw [hsplit]
            simp
        have ih := vpStep_foldl_spec cur bs (touched ++ [x]) (some s)
          (fun h => by cases h)
          (fun r hr => by
            cases hr
            exact hfm')
        constructor
        · intro h
          have := ih.1 h
          simp only [List.append_assoc, List.singleton_append] at this
          exact this
        · intro r hr
          have := ih.2 r hr
          simpa [List.append_assoc] using this

theorem reduceVersionPlanBumps_spec (cur : SemVer) (bumps : List (Option ReleaseType))
    (r : ReleaseType) (h : reduceVersionPlanBumps cur bumps = some r) :
    IsFirstMax cur (bumps.filterMap id) r := by
  have := (vpStep_foldl_spec cur bumps [] none (fun _ => rfl)
    (fun r hr => by cases hr)).2 r h
  simpa using this

/-! ## C2: monotonic versioning -/

/-- C2 (counterexample): the claim that every recorded `newVersion` is strictly
semver-greater than `currentVersion` fails for an explicitly provided version
specifier: `deriveNewSemverVersion` passes an explicit version through
verbatim, so resolving the specifier `1.0.0` at current version `2.0.0`
records the strictly smaller `1.0.0`. -/
theorem claim_C2_counterexample :
    deriveNewSemverVersion ⟨2, 0, 0, []⟩ (.exact ⟨1, 0, 0, []⟩) none = ⟨1, 0, 0, []⟩ ∧
    semverGt (deriveNewSemverVersion ⟨2, 0, 0, []⟩ (.exact ⟨1, 0, 0, []⟩) none)
      ⟨2, 0, 0, []⟩ = false ∧
    semverGt ⟨2, 0, 0, []⟩
      (deriveNewSemverVersion ⟨2, 0, 0, []⟩ (.exact ⟨1, 0, 0, []⟩) none) = true := by
  refine ⟨rfl, ?_, ?_⟩ <;> rfl

/-- C2 (amended): for every resolved specifier that is a relative release-type
keyword, the derived `newVersion` is strictly semver-greater than
`currentVersion` (with no preid configured), and the forced dependent bump
`updateDependentsBump` applied to the freshly read manifest version is
strictly semver-greater for any preid — so a recorded `newVersion` is never
decreased by a later forced bump; explicit version specifiers pass through
verbatim and are exempt. -/
theorem claim_C2_monotonic_versioning (cur : SemVer) (t : ReleaseType)
    (preid : Option String) :
    semverGt (deriveNewSemverVersion cur (.rel t) none) cur = true ∧
    semverGt (deriveNewSemverVersion cur (.rel updateDependentsBump) preid) cur = true :=
  ⟨semverGt_inc_none cur t, semverGt_inc_patch cur preid⟩

/-! ## C3: version-plan max-selection -/

/-- C3: whenever the version-plans reduce resolves a specifier `r` for a
project, `r` is a bump of one of the plans touching the project, applying `r`
to the current version yields a result no plan's bump strictly semver-exceeds,
and no plan seen earlier than `r`'s plan attains the same resulting version
(ties keep the first-seen plan). -/
theorem claim_C3_version_plan_max_selection (cur : SemVer)
    (bumps : List (Option ReleaseType)) (r : ReleaseType)
    (h : reduceVersionPlanBumps cur bumps = some r) :
    IsFirstMax cur (bumps.filterMap id) r := by
  have := (vpStep_foldl_spec cur bumps [] none (fun _ => rfl)
    (fun r hr => by cases hr)).2 r h
  simpa using this

/-- C3 (witness): two plans requesting `minor` and `patch` for a project at
`1.0.0` resolve to `minor`, and `minor` is the first-seen semver maximum
(`1.1.0 > 1.0.1`). -/
theorem claim_C3_witness :
    reduceVersionPlanBumps ⟨1, 0, 0, []⟩ [some .minor, some .patch] = some .minor ∧
    IsFirstMax ⟨1, 0, 0, []⟩
      ([some ReleaseType.minor, some ReleaseType.patch].filterMap id) .minor ∧
    semverInc ⟨1, 0, 0, []⟩ .minor none = ⟨1, 1, 0, []⟩ :=
  ⟨rfl, claim_C3_version_plan_max_selection ⟨1, 0, 0, []⟩
    [some .minor, some .patch] .minor rfl, rfl⟩

/-! ## C5: prerelease forcing under conventional commits -/

/-- C5: under the conventional-commits source, whenever the current version is
a prerelease, the resolved specifier is forced to `prerelease` regardless of
the bump level classified from commit history. -/
theorem claim_C5_prerelease_forcing (t : ReleaseType) (cv : SemVer)
    (ud : UpdateDependentsMode) (hb : Bool) (preid : Option String)
    (hpre : cv.pre ≠ []) :
    resolveConventionalCommitsSpecifier (some t) (some cv) ud hb preid =
      some .prerelease := by
  unfold resolveConventionalCommitsSpecifier hasPrereleaseOpt
  simp [List.isEmpty_iff, hpre]

/-- C5 (witness): at current version `1.0.0-beta.1` a `minor` classification is
forced to `prerelease`, and applying `prerelease` yields `1.0.0-beta.2`. -/
theorem claim_C5_witness :
    resolveConventionalCommitsSpecifier (some .minor)
      (some ⟨1, 0, 0, [.str "beta", .num 1]⟩) .auto false none = some .prerelease ∧
    deriveNewSemverVersion ⟨1, 0, 0, [.str "beta", .num 1]⟩ (.rel .prerelease) none =
      ⟨1, 0, 0, [.str "beta", .num 2]⟩ :=
  ⟨claim_C5_prerelease_forcing .minor ⟨1, 0, 0, [.str "beta", .num 1]⟩ .auto false none
    (by simp), rfl⟩

/-! ## C6: forced patch fallback for dependents of bumped projects -/

/-- C6: when a strategy resolves no specifier but `updateDependents` is not
`never` and the project is recorded in `ProjectToDependencyBumps` (here: the
`hasDependencyBump` flag), both the conventional-commits branch and the
version-plans branch force the fixed `updateDependentsBump` (`patch`) instead
of `null`. -/
theorem claim_C6_dependency_bump_fallback (ud : UpdateDependentsMode)
    (hud : ud ≠ .never) (cvOpt : Option SemVer) (preid : Option String)
    (cur : SemVer) (bumps : List (Option ReleaseType))
    (hnone : reduceVersionPlanBumps cur bumps = none) :
    resolveConventionalCommitsSpecifier none cvOpt ud true preid =
      some updateDependentsBump ∧
    resolveVersionPlansSpecifier cur bumps ud true = some updateDependentsBump := by
  constructor
  · unfold resolveConventionalCommitsSpecifier
    simp [hud]
  · unfold resolveVersionPlansSpecifier
    rw [hnone]
    simp [hud]

/-- C6 (witness): with `updateDependents: auto`, a dependency-bumped project
whose conventional-commits classification is empty and whose single plan does
not touch it resolves to `patch` in both branches. -/
theorem claim_C6_witness :
    resolveConventionalCommitsSpecifier none (some ⟨1, 0, 0, []⟩) .auto true none =
      some updateDependentsBump ∧
    resolveVersionPlansSpecifier ⟨1, 0, 0, []⟩ [none] .auto true =
      some updateDependentsBump :=
  claim_C6_dependency_bump_fallback .auto (by simp) (some ⟨1, 0, 0, []⟩) none
    ⟨1, 0, 0, []⟩ [none] rfl

/-! ## C7: null specifier causes zero manifest writes -/

/-- C7: a project whose specifier resolves to `null` records
`currentVersion / newVersion: null / dependentProjects` in the version data
(all dependents in `auto` mode, in-batch dependents otherwise, with `groupKey`
stripped), performs zero manifest writes in its iteration, and flushes its
buffered logs exactly when unchanged-project logging is enabled. -/
theorem claim_C7_null_specifier_no_writes (edges : List LocalPackageDependency)
    (projectName : Name) (cv : SemVer) (optionsProjects sortedProjects : List Name)
    (ud : UpdateDependentsMode) (src : SpecifierSource) (plans : List VersionPlan)
    (logU : Bool) (preid : Option String) :
    (processProject edges projectName cv none optionsProjects sortedProjects ud src
        plans logU preid).manifestWrites = [] ∧
    (processProject edges projectName cv none optionsProjects sortedProjects ud src
        plans logU preid).flushedLogs = logU ∧
    (processProject edges projectName cv none optionsProjects sortedProjects ud src
        plans logU preid).entry =
      { currentVersion := some (renderSemVer cv),
        newVersion := none,
        dependentProjects :=
          (if ud = .auto then allDependentProjects edges projectName
           else (allDependentProjects edges projectName).filter
             (fun d => isInCurrentBatch optionsProjects src plans d.source)).map
            stripGroupKey } := by
  refine ⟨rfl, rfl, ?_⟩
  unfold processProject
  cases ud <;> simp

/-! ## C8: dry-run behavior of the result callback -/

/-- C8 (counterexample): with one scheduled plan deletion and a workspace-root
pyproject.toml, the dry-run callback reports neither the plan file in
`deletedFiles` nor the root `poetry.lock` in `changedFiles`, both of which the
non-dry run reports — so the dry run does not return the lists of files that
would change, contradicting the claim (it is side-effect-free, however). -/
theorem claim_C8_counterexample :
    (resultCallback [("/w/p.md", "p.md")] [] true true).deletedFiles ≠
      (resultCallback [("/w/p.md", "p.md")] [] true false).deletedFiles ∧
    (resultCallback [("/w/p.md", "p.md")] [] true true).changedFiles ≠
      (resultCallback [("/w/p.md", "p.md")] [] true false).changedFiles ∧
    (resultCallback [("/w/p.md", "p.md")] [] true true).removedPlanFiles = [] ∧
    (resultCallback [("/w/p.md", "p.md")] [] true true).ranPoetryLockIn = [] := by
  refine ⟨?_, ?_, rfl, rfl⟩ <;> decide

/-- C8 (amended): the callback under `dryRun: true` runs no lock-regeneration
command and removes no plan files, returning the per-project `poetry.lock`
paths as `changedFiles` and an empty `deletedFiles` list (the plan files that
a non-dry run would delete, and the workspace-root `poetry.lock`, are not
reported); under `dryRun: false` the deferred effects run: every scheduled
plan file is removed and reported, and `poetry lock` runs in every collected
directory. -/
theorem claim_C8_dry_run_effects (planDeletions : List (String × String))
    (poetryLocks : List String) (rootHasPyproject : Bool) :
    resultCallback planDeletions poetryLocks rootHasPyproject true =
      { changedFiles := poetryLocks.map (fun d => d ++ "/poetry.lock"),
        deletedFiles := [],
        ranPoetryLockIn := [],
        removedPlanFiles := [] } ∧
    (resultCallback planDeletions poetryLocks rootHasPyproject false).removedPlanFiles =
      planDeletions.map (fun p => p.1) ∧
    (resultCallback planDeletions poetryLocks rootHasPyproject false).deletedFiles =
      planDeletions.map (fun p => p.2) ∧
    (resultCallback planDeletions poetryLocks rootHasPyproject false).ranPoetryLockIn =
      (if rootHasPyproject then poetryLocks ++ ["."] else poetryLocks) := by
  unfold resultCallback
  cases rootHasPyproject <;> simp

/-! ## C9: a provided specifier bypasses all resolution strategies -/

theorem specifierFoldStep_const (v : String) (independent : Bool)
    (strategy : Name → Option String) :
    ∀ (l : List Name) (st : SpecifierLoopState) (out : List (Name × Option String)),
      st.specifier = some (some v) →
      l.foldl (specifierFoldStep (some v) independent strategy) (st, out) =
        (st, out ++ l.map (fun p => (p, some v)))
  | [], st, out, h => by simp
  | p :: ps, st, out, h => by
    simp only [List.foldl_cons, List.map_cons]
    have hstep : specifierFoldStep (some v) independent strategy (st, out) p =
        (st, out ++ [(p, some v)]) := by
      unfold specifierFoldStep specifierIterationStep
      rw [h]
      simp
    rw [hstep, specifierFoldStep_const v independent strategy ps st (out ++ [(p, some v)]) h]
    simp

/-- C9: a provided, valid `options.specifier` is stripped of a leading `v`,
forces the specifier source to `prompt`, and is used identically for every
project in the batch — independent grouping included — with the per-project
resolution strategy consulted zero times. -/
theorem claim_C9_provided_specifier (isValidSemverSpecifier : String → Bool)
    (s : String) (hvalid : isValidSemverSpecifier s = true)
    (specifierSource : SpecifierSource) (independent : Bool)
    (strategy : Name → Option String) (projectNames : List Name) :
    setupProvidedSpecifier isValidSemverSpecifier (some s) =
      .ok (some (stripLeadingV s)) ∧
    effectiveSpecifierSource (some (stripLeadingV s)) specifierSource = .prompt ∧
    runSpecifierResolution (some (stripLeadingV s)) independent strategy projectNames =
      (projectNames.map (fun p => (p, some (stripLeadingV s))), 0) := by
  refine ⟨?_, rfl, ?_⟩
  · unfold setupProvidedSpecifier
    simp [hvalid]
  · unfold runSpecifierResolution
    simp only [Option.map_some']
    rw [specifierFoldStep_const (stripLeadingV s) independent strategy projectNames
      { specifier := some (some (stripLeadingV s)), strategyCalls := 0 } [] rfl]
    simp

/-- C9 (witness): the specifier `v1.2.3`, validated, is applied as `1.2.3` to
both projects of an independent batch with zero strategy consultations. -/
theorem claim_C9_witness :
    setupProvidedSpecifier (fun _ => true) (some "v1.2.3") = .ok (some "1.2.3") ∧
    effectiveSpecifierSource (some "1.2.3") .conventionalCommits = .prompt ∧
    runSpecifierResolution (some "1.2.3") true (fun _ => some "minor") ["a", "b"] =
      ([("a", some "1.2.3"), ("b", some "1.2.3")], 0) := by
  have hstrip : stripLeadingV "v1.2.3" = "1.2.3" := by decide
  have h := claim_C9_provided_specifier (fun _ => true) "v1.2.3" rfl
    .conventionalCommits true (fun _ => some "minor") ["a", "b"]
  rw [hstrip] at h
  obtain ⟨h1, h2, h3⟩ := h
  refine ⟨h1, h2, ?_⟩
  rw [h3]
  simp

/-! ## C4: topological precedence -/

theorem length_filter_partition (l : List Name) (q : Name → Bool) :
    (l.filter q).length + (l.filter (fun x => ! q x)).length = l.length := by
  induction l with
  | nil => rfl
  | cons a as ih =>
    cases h : q a <;> simp [List.filter_cons, h] <;> omega

theorem mem_topoRounds (dependsOn : Name → List Name) :
    ∀ (fuel : Nat) (rem : List Name) (x : Name), x ∈ rem →
      x ∈ topoRounds dependsOn fuel rem
  | 0, rem, x, hx => hx
  | fuel + 1, rem, x, hx => by
    unfold topoRounds
    split
    · exact hx
    · by_cases hr : topoReady dependsOn rem x = true
      · exact List.mem_append_left _ (List.mem_filter.2 ⟨hx, hr⟩)
      · refine List.mem_append_right _ ?_
        exact mem_topoRounds dependsOn fuel _ x
          (List.mem_filter.2 ⟨hx, by simp [hr]⟩)

theorem exists_topoReady (dependsOn : Name → List Name) (sel : List Name)
    (rank : Name → Nat)
    (hrank : ∀ p ∈ sel, ∀ d ∈ dependsOn p, d ∈ sel → rank d < rank p)
    (rem : List Name) (hsub : ∀ x ∈ rem, x ∈ sel) (hne : rem ≠ []) :
    ∃ p ∈ rem, topoReady dependsOn rem p = true := by
  obtain ⟨m, hm⟩ : ∃ m, m ∈ List.argmin rank rem := by
    cases h : List.argmin rank rem with
    | none => exact absurd (List.argmin_eq_none.1 h) hne
    | some m => exact ⟨m, rfl⟩
  refine ⟨m, List.argmin_mem hm, ?_⟩
  unfold topoReady
  rw [List.all_eq_true]
  intro d hd
  rw [decide_eq_true_eq]
  intro hdrem
  have h1 : rank d < rank m :=
    hrank m (hsub m (List.argmin_mem hm)) d hd (hsub d hdrem)
  have h2 : rank m ≤ rank d := List.le_of_mem_argmin hdrem hm
  omega

theorem topoRounds_dependency_first (dependsOn : Name → List Name) (sel : List Name)
    (rank : Name → Nat)
    (hrank : ∀ p ∈ sel, ∀ d ∈ dependsOn p, d ∈ sel → rank d < rank p)
    (s t : Name) (hdep : t ∈ dependsOn s) :
    ∀ (fuel : Nat) (rem : List Name), rem.length ≤ fuel → (∀ x ∈ rem, x ∈ sel) →
      s ∈ rem → t ∈ rem → List.Sublist [t, s] (topoRounds dependsOn fuel rem)
  | 0, rem, hlen, _, _, ht => by
    have hnil : rem = [] := List.length_eq_zero.1 (Nat.le_zero.1 hlen)
    subst hnil
    cases ht
  | fuel + 1, rem, hlen, hsub, hs, ht => by
    unfold topoRounds
    have hne : rem ≠ [] := by
      intro h
      subst h
      cases ht
    obtain ⟨p, hp, hpready⟩ :=
      exists_topoReady dependsOn sel rank hrank rem hsub hne
    have hp1 : p ∈ rem.filter (topoReady dependsOn rem) :=
      List.mem_filter.2 ⟨hp, hpready⟩
    have hreadyne : (rem.filter (topoReady dependsOn rem)).isEmpty = false :=
      List.isEmpty_eq_false.2 (List.ne_nil_of_mem hp1)
    rw [if_neg (by rw [hreadyne]; intro h; cases h)]
    have hsready : topoReady dependsOn rem s = false := by
      by_contra hc
      rw [Bool.not_eq_false] at hc
      unfold topoReady at hc
      rw [List.all_eq_true] at hc
      have hts := hc t hdep
      rw [decide_eq_true_eq] at hts
      exact hts ht
    have hs1 : s ∈ rem.filter (fun p => ! topoReady dependsOn rem p) :=
      List.mem_filter.2 ⟨hs, by simp [hsready]⟩
    by_cases htready : topoReady dependsOn rem t = true
    · have ht1 : t ∈ rem.filter (topoReady dependsOn rem) :=
        List.mem_filter.2 ⟨ht, htready⟩
      have hs2 : s ∈ topoRounds dependsOn fuel
          (rem.filter (fun p => ! topoReady dependsOn rem p)) :=
        mem_topoRounds dependsOn fuel _ s hs1
      exact List.Sublist.append (List.singleton_sublist.2 ht1)
        (List.singleton_sublist.2 hs2)
    · have ht1 : t ∈ rem.filter (fun p => ! topoReady dependsOn rem p) :=
        List.mem_filter.2 ⟨ht, by simp [htready]⟩
      have hlen' : (rem.filter (fun p => ! topoReady dependsOn rem p)).length ≤ fuel := by
        have hpart := length_filter_partition rem (topoReady dependsOn rem)
        have hposready : 0 < (rem.filter (topoReady dependsOn rem)).length :=
          List.length_pos.2 (List.ne_nil_of_mem hp1)
        omega
      have hsub' : ∀ x ∈ rem.filter (fun p => ! topoReady dependsOn rem p), x ∈ sel :=
        fun x hx => hsub x (List.mem_filter.1 hx).1
      have ih := topoRounds_dependency_first dependsOn sel rank hrank s t hdep
        fuel (rem.filter (fun p => ! topoReady dependsOn rem p)) hlen' hsub' hs1 ht1
      exact ih.trans (List.sublist_append_right _ _)

/-- C4: with dependency propagation enabled the projects are processed in the
topological order produced by the (spec-modelled) sort, so for any edge where
`s` depends on `t` with both in the selected batch (and an acyclicity ranking
for the selected dependency edges), `t` is processed — its new version
finalized — strictly before `s`'s own bump decision; and every dependent
recorded by the in-batch dependent loop carries `forceVersionBump: false`,
being left to bump itself on its own later turn. -/
theorem claim_C4_topological_precedence (dependsOn : Name → List Name)
    (optionsProjects : List Name) (rank : Name → Nat)
    (hrank : ∀ p ∈ optionsProjects, ∀ d ∈ dependsOn p,
      d ∈ optionsProjects → rank d < rank p)
    (ud : UpdateDependentsMode) (hud : ud ≠ .never)
    (s t : Name) (hs : s ∈ optionsProjects) (ht : t ∈ optionsProjects)
    (hdep : t ∈ dependsOn s)
    (edges : List LocalPackageDependency) (src : SpecifierSource)
    (plans : List VersionPlan) :
    List.Sublist [t, s] (projectsToProcess ud dependsOn optionsProjects) ∧
    ∀ c ∈ inBatchDependentCalls edges t optionsProjects src plans,
      c.forceVersionBump = none := by
  constructor
  · unfold projectsToProcess
    rw [if_neg hud]
    exact topoRounds_dependency_first dependsOn optionsProjects rank hrank s t hdep
      optionsProjects.length optionsProjects le_rfl (fun _ hx => hx) hs ht
  · intro c hc
    unfold inBatchDependentCalls at hc
    rw [List.mem_map] at hc
    obtain ⟨d, _, rfl⟩ := hc
    rfl

/-- C4 (witness): with `b` depending on `a`, both selected, the processing
order is `[a, b]` and the in-batch dependent loop of `a`'s iteration records
no forced bump. -/
theorem claim_C4_witness :
    List.Sublist [("a" : Name), "b"]
      (projectsToProcess .auto (fun n => if n = "b" then ["a"] else []) ["b", "a"]) ∧
    ∀ c ∈ inBatchDependentCalls [] "a" ["b", "a"] .prompt [],
      c.forceVersionBump = none :=
  claim_C4_topological_precedence (fun n => if n = "b" then ["a"] else [])
    ["b", "a"] (fun n => if n = "b" then 1 else 0) (by decide) .auto (by decide)
    "b" "a" (by decide) (by decide) (by decide) [] .prompt []

/-! ## C1: circular non-duplication -/

theorem mem_circ_foldl_of_mem_acc (projectName : Name) :
    ∀ (l : List LocalPackageDependency) (acc : Finset String) (x : String),
      x ∈ acc →
      x ∈ l.foldl (fun acc d =>
        if d.target = projectName then
          insert (d.target ++ ":" ++ d.source)
            (insert (d.source ++ ":" ++ d.target) acc)
        else acc) acc
  | [], _, _, hx => hx
  | d :: ds, acc, x, hx => by
    simp only [List.foldl_cons]
    apply mem_circ_foldl_of_mem_acc projectName ds
    split
    · exact Finset.mem_insert_of_mem (Finset.mem_insert_of_mem hx)
    · exact hx

theorem circKeys_mem_foldl (projectName : Name) :
    ∀ (l : List LocalPackageDependency) (acc : Finset String)
      (d : LocalPackageDependency), d ∈ l → d.target = projectName →
      (d.source ++ ":" ++ d.target) ∈ l.foldl (fun acc d =>
        if d.target = projectName then
          insert (d.target ++ ":" ++ d.source)
            (insert (d.source ++ ":" ++ d.target) acc)
        else acc) acc
  | [], _, _, hd, _ => by cases hd
  | e :: es, acc, d, hd, ht => by
    simp only [List.foldl_cons]
    rcases List.mem_cons.1 hd with rfl | hd'
    · apply mem_circ_foldl_of_mem_acc projectName es
      rw [if_pos ht]
      exact Finset.mem_insert_of_mem (Finset.mem_insert_self _ _)
    · exact circKeys_mem_foldl projectName es _ d hd' ht

theorem circKey_mem_circularDependencies {edges : List LocalPackageDependency}
    {projectName : Name} {d : LocalPackageDependency}
    (hd : d ∈ edges) (ht : d.target = projectName) :
    (d.source ++ ":" ++ d.target) ∈ circularDependencies edges projectName := by
  unfold circularDependencies
  apply circKeys_mem_foldl projectName _ _ d _ ht
  unfold allDependentProjects
  rw [List.mem_filter]
  exact ⟨hd, by simp [ht]⟩

theorem mem_transitive_mem_edges {edges : List LocalPackageDependency}
    {projectName : Name} {ud : UpdateDependentsMode} {d : LocalPackageDependency}
    (hd : d ∈ transitiveLocalPackageDependents edges projectName ud) : d ∈ edges := by
  unfold transitiveLocalPackageDependents at hd
  split at hd
  · revert hd
    generalize allDependentProjects edges projectName = l
    induction l with
    | nil => intro h; cases h
    | cons e es ih =>
      intro hd
      simp only [List.foldr_cons] at hd
      rcases List.mem_append.1 hd with h | h
      · exact (List.mem_filter.1 h).1
      · exact ih h
  · cases hd

/-- C1 (counterexample): the claim quantified over every pair with mutual
edges is false. In the workspace with edges `b→a`, `a→b`, `b→c`, `c→a` —
`a` and `b` a mutual pair — processing `a` with `updateDependents: auto` and
batch `[a]` issues two forced-bump calls on `b`: one from the out-of-batch
dependent loop via `b→a`, and a second from the transitive-dependent pass via
`b→c` (whose key `b:c` is not in the circular-dependency set, which only
flags `a:b`/`b:a`/`a:c`/`c:a`), and the second call re-reads and re-bumps
`b`'s already-bumped manifest. -/
theorem claim_C1_counterexample :
    (iterationUpdateCalls
        [⟨"b", "a", "dependencies", none⟩, ⟨"a", "b", "dependencies", none⟩,
         ⟨"b", "c", "dependencies", none⟩, ⟨"c", "a", "dependencies", none⟩]
        "a" ["a"] ["a"] .auto .prompt []).countP
      (fun c => c.dependentProject.source == "b" && c.forceVersionBump.isSome) = 2 ∧
    ¬ (iterationUpdateCalls
        [⟨"b", "a", "dependencies", none⟩, ⟨"a", "b", "dependencies", none⟩,
         ⟨"b", "c", "dependencies", none⟩, ⟨"c", "a", "dependencies", none⟩]
        "a" ["a"] ["a"] .auto .prompt []).countP
      (fun c => c.dependentProject.source == "b" && c.forceVersionBump.isSome) ≤ 1 := by
  constructor
  · decide
  · decide

/-- C1 (amended): for a pair of projects `A`, `B` with mutual local dependency
edges, provided `B` depends locally on nothing but `A` and through at most one
edge, processing `A` with `updateDependents: auto` issues at most one
dependent update call with a forced version bump on `B`: the mutual pair's
directed keys are recorded in the circular-dependency set, and the
transitive-dependent pass passes `forceVersionBump: false` for every dependent
pair flagged there. (Without the provisos the code can force two bumps on `B`:
through a second dependency collection, or through a transitive edge from `B`
to a third project that also depends on `A`.) -/
theorem claim_C1_circular_non_duplication (edges : List LocalPackageDependency)
    (A B : Name) (eBA eAB : LocalPackageDependency)
    (hBAmem : eBA ∈ edges) (hBAs : eBA.source = B) (hBAt : eBA.target = A)
    (_hABmem : eAB ∈ edges) (_hABs : eAB.source = A) (_hABt : eAB.target = B)
    (honly : ∀ e ∈ edges, e.source = B → e.target = A)
    (honce : edges.countP (fun e => e.source == B) ≤ 1)
    (optionsProjects sortedProjects : List Name) (src : SpecifierSource)
    (plans : List VersionPlan) :
    (iterationUpdateCalls edges A optionsProjects sortedProjects .auto src
        plans).countP
      (fun c => c.dependentProject.source == B && c.forceVersionBump.isSome) ≤ 1 := by
  unfold iterationUpdateCalls
  rw [List.countP_append, List.countP_append]
  have hin : (inBatchDependentCalls edges A optionsProjects src plans).countP
      (fun c => c.dependentProject.source == B && c.forceVersionBump.isSome) = 0 := by
    rw [List.countP_eq_zero]
    intro c hc
    unfold inBatchDependentCalls at hc
    rw [List.mem_map] at hc
    obtain ⟨d, _, rfl⟩ := hc
    simp
  have htrans : (transitiveDependentCalls edges A .auto).countP
      (fun c => c.dependentProject.source == B && c.forceVersionBump.isSome) = 0 := by
    rw [List.countP_eq_zero]
    intro c hc
    unfold transitiveDependentCalls at hc
    rw [List.mem_map] at hc
    obtain ⟨d, hd, rfl⟩ := hc
    simp only [Bool.and_eq_true, beq_iff_eq, not_and]
    intro hsB
    have hdedges : d ∈ edges := mem_transitive_mem_edges hd
    have htA : d.target = A := honly d hdedges hsB
    have hkey : (d.source ++ ":" ++ d.target) ∈ circularDependencies edges A := by
      rw [hsB, htA]
      have := circKey_mem_circularDependencies hBAmem hBAt
      rw [hBAs, hBAt] at this
      exact this
    rw [if_pos hkey]
    simp
  have s1 : (((allDependentProjects edges A).filter
      (fun d => ! isInCurrentBatch optionsProjects src plans d.source)).countP
      (fun d => d.source == B)) ≤
      (allDependentProjects edges A).countP (fun d => d.source == B) := by
    rw [List.countP_filter]
    apply List.countP_mono_left
    intro d _ h
    rw [Bool.and_eq_true] at h
    exact h.1
  have s2 : (allDependentProjects edges A).countP (fun d => d.source == B) ≤
      edges.countP (fun e => e.source == B) := by
    unfold allDependentProjects
    rw [List.countP_filter]
    apply List.countP_mono_left
    intro d _ h
    rw [Bool.and_eq_true] at h
    exact h.1
  have hout : (outOfBatchDependentCalls edges A optionsProjects sortedProjects
      .auto src plans).countP
      (fun c => c.dependentProject.source == B && c.forceVersionBump.isSome) ≤ 1 := by
    unfold outOfBatchDependentCalls
    rw [if_pos rfl, List.countP_map]
    refine le_trans ?_ (le_trans s1 (le_trans s2 honce))
    apply List.countP_mono_left
    intro d _ h
    simp only [Function.comp_apply] at h
    rw [Bool.and_eq_true] at h
    exact h.1
  omega

/-- C1 (witness): the two-project workspace with mutual edges `a ↔ b`,
processing `a` in `auto` mode with batch `[a]`, forces exactly one bump on
`b`. -/
theorem claim_C1_witness :
    (iterationUpdateCalls
        [⟨"b", "a", "dependencies", none⟩, ⟨"a", "b", "dependencies", none⟩]
        "a" ["a"] ["a"] .auto .prompt []).countP
      (fun c => c.dependentProject.source == "b" && c.forceVersionBump.isSome) ≤ 1 :=
  claim_C1_circular_non_duplication
    [⟨"b", "a", "dependencies", none⟩, ⟨"a", "b", "dependencies", none⟩]
    "a" "b" ⟨"b", "a", "dependencies", none⟩ ⟨"a", "b", "dependencies", none⟩
    (by decide) rfl rfl (by decide) rfl rfl (by decide) (by decide)
    ["a"] ["a"] .prompt []

/-! ## C10: dependents without a version field -/

/-- C10: a forced bump on a dependent whose manifest has no version field
(`currentPackageVersion` null) never writes a new version into that manifest:
the manifest is written back exactly as read, and the version-data entry
records `currentVersion: null` and `newVersion` equal to the dependency
version string the dependent currently declares on the bumped dependency. -/
theorem claim_C10_missing_version_dependent (py : PoetryTable)
    (hver : py.version = none) (e : LocalPackageDependency)
    (depName newDepV : String) (bump : ReleaseType) (cfg : Option String)
    (preserve : Bool) (preid : Option String)
    (tdeps : List LocalPackageDependency) :
    updateDependentProjectAndAddToVersionData (some py) e depName newDepV
        (some bump) cfg preserve preid tdeps =
      .updated py (some (e.source,
        { currentVersion := none,
          newVersion := extractDependencyVersion (collectionFor py e) depName,
          dependentProjects := tdeps.filter (fun x => x.target == e.source) })) := by
  unfold updateDependentProjectAndAddToVersionData
  dsimp only
  rw [hver]
  simp

/-- C10 (witness): dependent `app-b` with no version field declaring
`lib-a: ^1.0.0`, force-bumped after `lib-a` moved to `1.0.1`: the manifest is
written back unchanged and the entry records `currentVersion: null`,
`newVersion: "^1.0.0"`. -/
theorem claim_C10_witness :
    updateDependentProjectAndAddToVersionData
        (some ⟨"app-b", none, [("lib-a", .str "^1.0.0")], []⟩)
        ⟨"app-b", "lib-a", "dependencies", none⟩ "lib-a" "1.0.1"
        (some .patch) none false none [] =
      .updated ⟨"app-b", none, [("lib-a", .str "^1.0.0")], []⟩
        (some ("app-b",
          { currentVersion := none,
            newVersion := some "^1.0.0",
            dependentProjects := [] })) := by
  rw [claim_C10_missing_version_dependent
    ⟨"app-b", none, [("lib-a", .str "^1.0.0")], []⟩ rfl
    ⟨"app-b", "lib-a", "dependencies", none⟩ "lib-a" "1.0.1" .patch none false none []]
  rfl
